import Mathlib

/-!
Shallow embedding of the bigints library (Takashiidobe/bigints): fixed-width
multi-limb integers at 64, 128 and 256 bits, signed and unsigned, built from
machine-word limbs.  Machine words are modelled as Nat with explicit reduction
modulo 2 ^ w at every point where the Rust code performs w-bit arithmetic.
Fallible operations (Rust panics and hardware division faults) return Option.
Shift operators on u128 follow Rust release semantics: the shift amount is
reduced modulo the bit width when it is out of range.
-/

set_option maxHeartbeats 2000000
set_option maxRecDepth 8000

namespace Bigints

/-- Model of Rust u64.overflowing_add: wrapped 64-bit sum and carry-out flag. -/
def overflowing_add64 (x y : Nat) : Nat × Bool :=
  ((x + y) % 2 ^ 64, decide (2 ^ 64 ≤ x + y))

/-- Model of Rust u64.carrying_add: 64-bit sum with carry-in, and carry-out. -/
def carrying_add64 (x y : Nat) (c : Bool) : Nat × Bool :=
  ((x + y + c.toNat) % 2 ^ 64, decide (2 ^ 64 ≤ x + y + c.toNat))

/-- Model of Rust u64.overflowing_sub: wrapped 64-bit difference and borrow flag. -/
def overflowing_sub64 (x y : Nat) : Nat × Bool :=
  ((x + 2 ^ 64 - y) % 2 ^ 64, decide (x < y))

/-- Model of Rust u64.borrowing_sub: 64-bit difference with borrow-in, and borrow-out. -/
def borrowing_sub64 (x y : Nat) (b : Bool) : Nat × Bool :=
  ((x + 2 ^ 64 - (y + b.toNat)) % 2 ^ 64, decide (x < y + b.toNat))

/-- Model of Rust u128.overflowing_add: wrapped 128-bit sum and carry-out flag. -/
def overflowing_add128 (x y : Nat) : Nat × Bool :=
  ((x + y) % 2 ^ 128, decide (2 ^ 128 ≤ x + y))

/-- Model of Rust u64.wrapping_add. -/
def wrapping_add64 (x y : Nat) : Nat := (x + y) % 2 ^ 64

/-- Model of Rust u64.wrapping_mul. -/
def wrapping_mul64 (x y : Nat) : Nat := x * y % 2 ^ 64

/-- Model of Rust u128.wrapping_sub (operands below 2 ^ 128). -/
def wrapping_sub128 (x y : Nat) : Nat := (x + 2 ^ 128 - y) % 2 ^ 128

/-- Model of Rust u128.wrapping_mul. -/
def wrapping_mul128 (x y : Nat) : Nat := x * y % 2 ^ 128

/-- Model of a Rust u128 left shift in release mode: the amount is masked
modulo 128 and the result is truncated to 128 bits. -/
def shl128 (x s : Nat) : Nat := (x <<< (s % 128)) % 2 ^ 128

/-- Model of a Rust u128 right shift in release mode: the amount is masked
modulo 128. -/
def shr128 (x s : Nat) : Nat := x >>> (s % 128)

/-- Bit length of a Nat computed with explicit fuel, so that it reduces by
kernel evaluation.  With fuel at least the actual bit count it returns the
number of binary digits (0 for 0). -/
def bitLen : Nat → Nat → Nat
  | 0, _ => 0
  | f + 1, n => if n = 0 then 0 else bitLen f (n / 2) + 1

/-- 256-bit unsigned integer stored as four 64-bit limbs, least significant
first (src/u256.rs, struct Uint256).  Limbs are Nat; a well-formed value keeps
every limb below 2 ^ 64. -/
structure Uint256 where
  l0 : Nat
  l1 : Nat
  l2 : Nat
  l3 : Nat
deriving DecidableEq

namespace Uint256

/-- Constant Uint256::ZERO. -/
def ZERO : Uint256 := ⟨0, 0, 0, 0⟩

/-- Predicate Uint256::is_zero. -/
def is_zero (a : Uint256) : Bool :=
  a.l0 = 0 && a.l1 = 0 && a.l2 = 0 && a.l3 = 0

/-- Numeric value of the four little-endian limbs. -/
def toNat (a : Uint256) : Nat :=
  a.l0 + a.l1 * 2 ^ 64 + a.l2 * 2 ^ 128 + a.l3 * 2 ^ 192

/-- Well-formedness: every limb is a 64-bit value. -/
def Wf (a : Uint256) : Prop :=
  a.l0 < 2 ^ 64 ∧ a.l1 < 2 ^ 64 ∧ a.l2 < 2 ^ 64 ∧ a.l3 < 2 ^ 64

instance (a : Uint256) : Decidable a.Wf := by
  unfold Wf; infer_instance

/-- Limb decomposition of a 256-bit numeric value. -/
def ofNat (n : Nat) : Uint256 :=
  ⟨n % 2 ^ 64, n / 2 ^ 64 % 2 ^ 64, n / 2 ^ 128 % 2 ^ 64, n / 2 ^ 192 % 2 ^ 64⟩

/-- 256-bit addition with carry chain (impl Add for Uint256). -/
def add (a rhs : Uint256) : Uint256 :=
  let (l0, c0) := overflowing_add64 a.l0 rhs.l0
  let (l1, c1) := carrying_add64 a.l1 rhs.l1 c0
  let (l2, c2) := carrying_add64 a.l2 rhs.l2 c1
  let (l3, _) := carrying_add64 a.l3 rhs.l3 c2
  ⟨l0, l1, l2, l3⟩

/-- 256-bit subtraction with borrow chain (impl Sub for Uint256). -/
def sub (a rhs : Uint256) : Uint256 :=
  let (l0, b0) := overflowing_sub64 a.l0 rhs.l0
  let (l1, b1) := borrowing_sub64 a.l1 rhs.l1 b0
  let (l2, b2) := borrowing_sub64 a.l2 rhs.l2 b1
  let (l3, _) := borrowing_sub64 a.l3 rhs.l3 b2
  ⟨l0, l1, l2, l3⟩

/-- 256-bit schoolbook multiplication keeping the low 256 bits, with column
overflow tracked explicitly (Uint256::mul_adx; the u128 column sums and their
overflow flags are transliterated one for one). -/
def mul_adx (a rhs : Uint256) : Uint256 :=
  let p00 := a.l0 * rhs.l0
  let r0 := p00 % 2 ^ 64
  let carry0 := p00 >>> 64
  let p01 := a.l0 * rhs.l1
  let p10 := a.l1 * rhs.l0
  let (sum1, o11) := overflowing_add128 carry0 p01
  let (col1, o12) := overflowing_add128 sum1 p10
  let r1 := col1 % 2 ^ 64
  let carry1 := col1 >>> 64 + (o11.toNat + o12.toNat) <<< 64
  let p02 := a.l0 * rhs.l2
  let p11 := a.l1 * rhs.l1
  let p20 := a.l2 * rhs.l0
  let (sum2, o21) := overflowing_add128 carry1 p02
  let (sum3, o22) := overflowing_add128 sum2 p11
  let (col2, o23) := overflowing_add128 sum3 p20
  let r2 := col2 % 2 ^ 64
  let carry2 := col2 >>> 64 + (o21.toNat + o22.toNat + o23.toNat) <<< 64
  let r3 := wrapping_add64 (wrapping_add64 (wrapping_add64 (wrapping_add64
    (carry2 % 2 ^ 64) (wrapping_mul64 a.l0 rhs.l3)) (wrapping_mul64 a.l1 rhs.l2))
    (wrapping_mul64 a.l2 rhs.l1)) (wrapping_mul64 a.l3 rhs.l0)
  ⟨r0, r1, r2, r3⟩

/-- Portable multiplication fallback (Uint256::mul_portable); its body is the
same column computation as mul_adx. -/
def mul_portable (a rhs : Uint256) : Uint256 :=
  mul_adx a rhs

/-- Multiplication operator (impl Mul for Uint256): dispatches to mul_adx on
x86_64 and mul_portable elsewhere; both compute the same function. -/
def mul (a rhs : Uint256) : Uint256 :=
  mul_adx a rhs

/-- Lexicographic comparison from the most significant limb (impl Ord for
Uint256), specialised to the strict-less-than test used by div_knuth. -/
def lt (a b : Uint256) : Bool :=
  if a.l3 = b.l3 then
    if a.l2 = b.l2 then
      if a.l1 = b.l1 then decide (a.l0 < b.l0)
      else decide (a.l1 < b.l1)
    else decide (a.l2 < b.l2)
  else decide (a.l3 < b.l3)

/-- Shift left by n bits, n below 256 (Uint256::shl_u32).  Iterations of the
source loop are independent, so the result is given per limb index. -/
def shl_u32 (a : Uint256) (n : Nat) : Uint256 :=
  if n = 0 then a
  else if 256 ≤ n then ZERO
  else
    let full := n / 64
    let bits := n % 64
    let limbs := [a.l0, a.l1, a.l2, a.l3]
    let res := fun i =>
      if i < full then 0
      else if bits = 0 then limbs.getD (i - full) 0
      else (limbs.getD (i - full) 0 <<< bits) % 2 ^ 64 |||
        (if full < i then limbs.getD (i - full - 1) 0 >>> (64 - bits) else 0)
    ⟨res 0, res 1, res 2, res 3⟩

/-- Shift left returning 7 limbs to capture overflow (Uint256::shl_wide).
Iterations of the source loop are independent, so the result is given per
limb index over List.range 7. -/
def shl_wide (a : Uint256) (n : Nat) : List Nat :=
  if n = 0 then [a.l0, a.l1, a.l2, a.l3, 0, 0, 0]
  else
    let full := n / 64
    let bits := n % 64
    let limbs := [a.l0, a.l1, a.l2, a.l3]
    (List.range 7).map fun i =>
      if i < full then 0
      else if bits = 0 then (if i - full < 4 then limbs.getD (i - full) 0 else 0)
      else
        (if i - full < 4 then (limbs.getD (i - full) 0 <<< bits) % 2 ^ 64 else 0) |||
          (if full < i ∧ i - full - 1 < 4 then limbs.getD (i - full - 1) 0 >>> (64 - bits) else 0)

end Uint256

/-- Hardware 128-by-64 division (div_u128_by_u64, x86_64 inline asm).  The
div instruction faults when the divisor is zero or the quotient overflows
64 bits, which for a numerator below 2 ^ 128 is exactly when the high half is
not below the divisor; the fault is modelled as none. -/
def div_u128_by_u64 (n d : Nat) : Option (Nat × Nat) :=
  if d ≠ 0 ∧ n >>> 64 < d then some (n / d, n % d) else none

/-- Trial-digit estimate shared by the Knuth paths: the top two remainder
limbs divided by the top divisor limb, capped at the maximum 64-bit value
when the hardware division would overflow. -/
def estimate_qhat (rHi rLo dHi : Nat) : Nat :=
  if dHi ≤ rHi then 2 ^ 64 - 1
  else ((rHi <<< 64 ||| rLo) / dHi) % 2 ^ 64

/-- Quotient-digit refinement loop shared by the four estimation loops of the
division code: recompute the running remainder rhat for the trial digit; exit
when rhat overflows 64 bits or the next-limb comparison shows no overrun,
otherwise decrement the digit.  The Rust loop always exits once the digit
reaches zero (rhat is then the whole prefix and the comparison cannot show an
overrun), so structural recursion on the digit is the loop measure. -/
def refine_qhat (pref dHi dNext next : Nat) : Nat → Nat
  | 0 => 0
  | q + 1 =>
    let qhat := q + 1
    let rhat := wrapping_sub128 pref (qhat * dHi % 2 ^ 128)
    if 2 ^ 64 - 1 < rhat then qhat
    else if qhat * dNext ≤ (rhat <<< 64) ||| next then qhat
    else refine_qhat pref dHi dNext next q

/-- Subtract qhat times the 4-limb divisor from rem[j..j+4] with borrow
propagation, returning the updated limbs and whether a final borrow occurred
(sub_mul_limbs). -/
def sub_mul_limbs (rem : List Nat) (j : Nat) (d : Uint256) (qhat : Nat) :
    List Nat × Bool :=
  let dLimbs := [d.l0, d.l1, d.l2, d.l3]
  let step := fun (st : List Nat × Nat) (i : Nat) =>
    if j + i < 7 then
      let prod := qhat * dLimbs.getD i 0 + st.2
      let cur := st.1.getD (j + i) 0
      (st.1.set (j + i) ((cur + 2 ^ 64 - prod % 2 ^ 64) % 2 ^ 64),
        prod >>> 64 + (decide (cur < prod % 2 ^ 64)).toNat)
    else st
  let st := [0, 1, 2, 3].foldl step (rem, 0)
  if j + 4 < 7 then
    let cur := st.1.getD (j + 4) 0
    (st.1.set (j + 4) ((cur + 2 ^ 64 - st.2 % 2 ^ 64) % 2 ^ 64),
      decide (cur < st.2 % 2 ^ 64))
  else (st.1, decide (st.2 ≠ 0))

/-- Variant of sub_mul_limbs for a 3-limb divisor window (sub_mul_limbs_3). -/
def sub_mul_limbs_3 (rem : List Nat) (j : Nat) (d : Uint256) (qhat : Nat) :
    List Nat × Bool :=
  let dLimbs := [d.l0, d.l1, d.l2]
  let step := fun (st : List Nat × Nat) (i : Nat) =>
    if j + i < 7 then
      let prod := qhat * dLimbs.getD i 0 + st.2
      let cur := st.1.getD (j + i) 0
      (st.1.set (j + i) ((cur + 2 ^ 64 - prod % 2 ^ 64) % 2 ^ 64),
        prod >>> 64 + (decide (cur < prod % 2 ^ 64)).toNat)
    else st
  let st := [0, 1, 2].foldl step (rem, 0)
  if j + 3 < 7 then
    let cur := st.1.getD (j + 3) 0
    (st.1.set (j + 3) ((cur + 2 ^ 64 - st.2 % 2 ^ 64) % 2 ^ 64),
      decide (cur < st.2 % 2 ^ 64))
  else (st.1, decide (st.2 ≠ 0))

/-- Add the 4-limb divisor back into rem[j..j+5] after an over-subtraction
(add_back_limbs). -/
def add_back_limbs (rem : List Nat) (j : Nat) (d : Uint256) : List Nat :=
  let dLimbs := [d.l0, d.l1, d.l2, d.l3]
  let step := fun (st : List Nat × Bool) (i : Nat) =>
    if j + i < 7 then
      let cur := st.1.getD (j + i) 0
      let s1 := (cur + dLimbs.getD i 0) % 2 ^ 64
      let c1 := decide (2 ^ 64 ≤ cur + dLimbs.getD i 0)
      let s2 := (s1 + st.2.toNat) % 2 ^ 64
      let c2 := decide (2 ^ 64 ≤ s1 + st.2.toNat)
      (st.1.set (j + i) s2, c1 || c2)
    else st
  let st := [0, 1, 2, 3].foldl step (rem, false)
  if j + 4 < 7 then
    st.1.set (j + 4) ((st.1.getD (j + 4) 0 + st.2.toNat) % 2 ^ 64)
  else st.1

/-- Variant of add_back_limbs for a 3-limb divisor window (add_back_limbs_3). -/
def add_back_limbs_3 (rem : List Nat) (j : Nat) (d : Uint256) : List Nat :=
  let dLimbs := [d.l0, d.l1, d.l2]
  let step := fun (st : List Nat × Bool) (i : Nat) =>
    if j + i < 7 then
      let cur := st.1.getD (j + i) 0
      let s1 := (cur + dLimbs.getD i 0) % 2 ^ 64
      let c1 := decide (2 ^ 64 ≤ cur + dLimbs.getD i 0)
      let s2 := (s1 + st.2.toNat) % 2 ^ 64
      let c2 := decide (2 ^ 64 ≤ s1 + st.2.toNat)
      (st.1.set (j + i) s2, c1 || c2)
    else st
  let st := [0, 1, 2].foldl step (rem, false)
  if j + 3 < 7 then
    st.1.set (j + 3) ((st.1.getD (j + 3) 0 + st.2.toNat) % 2 ^ 64)
  else st.1

/-- Knuth-style 256-by-128 division helper (div_u256_by_u128): assumes hi is
below d, estimates two 64-bit quotient digits after normalization.  The u128
shifts follow Rust release semantics (amounts masked modulo 128), which
matters when the divisor is already normalized: shift = 0 makes 128 - shift
an out-of-range shift amount. -/
def div_u256_by_u128 (hi lo d : Nat) : Nat :=
  if hi = 0 then lo / d
  else
    let shift := 128 - bitLen 128 d
    let d_norm := shl128 d shift
    let d_hi := d_norm >>> 64
    let n2 := shl128 hi shift ||| shr128 lo (128 - shift)
    let n1 := shl128 lo shift
    let n_hi := n2 >>> 64
    let qhat0 := if d_hi ≤ n_hi then 2 ^ 64 - 1 else n2 / d_hi % 2 ^ 64
    let d_lo := d_norm % 2 ^ 64
    let q_hi := refine_qhat n2 d_hi d_lo (n1 >>> 64) qhat0
    let rem := wrapping_sub128 (shl128 n2 64 ||| (n1 >>> 64)) (wrapping_mul128 q_hi d_norm)
    let n_hi2 := rem >>> 64
    let qhat20 := if d_hi ≤ n_hi2 then 2 ^ 64 - 1 else rem / d_hi % 2 ^ 64
    let qhat2 := refine_qhat rem d_hi d_lo (n1 % 2 ^ 64) qhat20
    (q_hi <<< 64) ||| qhat2

namespace Uint256

/-- Division by a one-limb divisor using the hardware division helper limb by
limb, most significant first (Uint256::div_by_u64). -/
def div_by_u64 (a : Uint256) (d : Nat) : Option Uint256 := do
  let (q3, r3) ← div_u128_by_u64 a.l3 d
  let (q2, r2) ← div_u128_by_u64 (r3 <<< 64 ||| a.l2) d
  let (q1, r1) ← div_u128_by_u64 (r2 <<< 64 ||| a.l1) d
  let (q0, _) ← div_u128_by_u64 (r1 <<< 64 ||| a.l0) d
  pure ⟨q0, q1, q2, q3⟩

/-- Division by a two-limb divisor (Uint256::div_by_u128): divide the high
128-bit half natively, then the remaining 256-by-128 problem with
div_u256_by_u128. -/
def div_by_u128 (a : Uint256) (d : Nat) : Uint256 :=
  let n_hi := a.l3 <<< 64 ||| a.l2
  let n_lo := a.l1 <<< 64 ||| a.l0
  let q_hi := n_hi / d
  let r_hi := n_hi % d
  let q_lo := div_u256_by_u128 r_hi n_lo d
  ⟨q_lo % 2 ^ 64, q_lo >>> 64 % 2 ^ 64, q_hi % 2 ^ 64, q_hi >>> 64 % 2 ^ 64⟩

/-- Knuth Algorithm D path with a divisor occupying the top limb: one
quotient digit (Uint256::div_large_divisor_64bit_quotient). -/
def div_large_divisor_64bit_quotient (a d : Uint256) : Uint256 :=
  let shift := 64 - bitLen 64 d.l3
  let d_norm := d.shl_u32 shift
  let rem := a.shl_wide shift
  let r_hi := rem.getD 4 0
  let r_lo := rem.getD 3 0
  let d_hi := d_norm.l3
  let qhat0 := estimate_qhat r_hi r_lo d_hi
  let qhat1 := refine_qhat (r_hi <<< 64 ||| r_lo) d_hi d_norm.l2 (rem.getD 2 0) qhat0
  let s := sub_mul_limbs rem 0 d_norm qhat1
  let qhat2 := if s.2 then qhat1 - 1 else qhat1
  let _rem2 := if s.2 then add_back_limbs s.1 0 d_norm else s.1
  ⟨qhat2, 0, 0, 0⟩

/-- Knuth Algorithm D path with a divisor occupying the third limb: two
quotient digits, most significant first
(Uint256::div_large_divisor_128bit_quotient, loop over j = 1, 0 unrolled). -/
def div_large_divisor_128bit_quotient (a d : Uint256) : Uint256 :=
  let shift := 64 - bitLen 64 d.l2
  let d_norm := d.shl_u32 shift
  let rem := a.shl_wide shift
  let d_hi := d_norm.l2
  let qhatA0 := estimate_qhat (rem.getD 4 0) (rem.getD 3 0) d_hi
  let qhatA1 := refine_qhat ((rem.getD 4 0) <<< 64 ||| rem.getD 3 0) d_hi d_norm.l1
    (rem.getD 2 0) qhatA0
  let sA := sub_mul_limbs_3 rem 1 d_norm qhatA1
  let q_hi := if sA.2 then qhatA1 - 1 else qhatA1
  let remA := if sA.2 then add_back_limbs_3 sA.1 1 d_norm else sA.1
  let qhatB0 := estimate_qhat (remA.getD 3 0) (remA.getD 2 0) d_hi
  let qhatB1 := refine_qhat ((remA.getD 3 0) <<< 64 ||| remA.getD 2 0) d_hi d_norm.l1
    (remA.getD 1 0) qhatB0
  let sB := sub_mul_limbs_3 remA 0 d_norm qhatB1
  let q_lo := if sB.2 then qhatB1 - 1 else qhatB1
  let _remB := if sB.2 then add_back_limbs_3 sB.1 0 d_norm else sB.1
  ⟨q_lo, q_hi, 0, 0⟩

/-- Dispatcher for divisors spanning three or more limbs
(Uint256::div_knuth), with the short-circuit for a dividend below the
divisor. -/
def div_knuth (a d : Uint256) : Uint256 :=
  if a.lt d then ZERO
  else if d.l3 ≠ 0 then a.div_large_divisor_64bit_quotient d
  else a.div_large_divisor_128bit_quotient d

/-- Division operator (impl Div for Uint256): dispatch on the divisor size. -/
def div (a rhs : Uint256) : Option Uint256 :=
  if rhs.l3 = 0 ∧ rhs.l2 = 0 then
    if rhs.l1 = 0 then a.div_by_u64 rhs.l0
    else some (a.div_by_u128 (rhs.l1 <<< 64 ||| rhs.l0))
  else some (a.div_knuth rhs)

end Uint256

/-- Model of Rust u32.overflowing_add. -/
def overflowing_add32 (x y : Nat) : Nat × Bool :=
  ((x + y) % 2 ^ 32, decide (2 ^ 32 ≤ x + y))

/-- Model of Rust u32.wrapping_add. -/
def wrapping_add32 (x y : Nat) : Nat := (x + y) % 2 ^ 32

/-- Model of Rust u32.wrapping_mul. -/
def wrapping_mul32 (x y : Nat) : Nat := x * y % 2 ^ 32

/-- Model of Rust u32.overflowing_sub. -/
def overflowing_sub32 (x y : Nat) : Nat × Bool :=
  ((x + 2 ^ 32 - y) % 2 ^ 32, decide (x < y))

/-- Two-complement reading of a w-bit pattern as a mathematical integer. -/
def toZ (w n : Nat) : Int :=
  if n < 2 ^ (w - 1) then (n : Int) else (n : Int) - 2 ^ w

/-- Truncation of a mathematical integer to its w-bit two-complement
pattern (models Rust `as uN` casts). -/
def patZ (w : Nat) (v : Int) : Nat := (v.emod (2 ^ w)).toNat

/-- 256-bit signed integer, same limb storage as Uint256 with the top bit of
l3 as sign (src/i256.rs, struct Int256). -/
structure Int256 where
  l0 : Nat
  l1 : Nat
  l2 : Nat
  l3 : Nat
deriving DecidableEq

namespace Int256

/-- Constant Int256::ZERO. -/
def ZERO : Int256 := ⟨0, 0, 0, 0⟩

/-- Constant Int256::ONE. -/
def ONE : Int256 := ⟨1, 0, 0, 0⟩

/-- Constant Int256::NEG_ONE. -/
def NEG_ONE : Int256 := ⟨2 ^ 64 - 1, 2 ^ 64 - 1, 2 ^ 64 - 1, 2 ^ 64 - 1⟩

/-- Constant Int256::MIN. -/
def MIN : Int256 := ⟨0, 0, 0, 2 ^ 63⟩

/-- Constant Int256::MAX. -/
def MAX : Int256 := ⟨2 ^ 64 - 1, 2 ^ 64 - 1, 2 ^ 64 - 1, 2 ^ 63 - 1⟩

/-- Reinterpret the limbs as unsigned (Int256::to_uint256). -/
def to_uint256 (a : Int256) : Uint256 := ⟨a.l0, a.l1, a.l2, a.l3⟩

/-- Reinterpret unsigned limbs as signed (Int256::from_uint256). -/
def from_uint256 (u : Uint256) : Int256 := ⟨u.l0, u.l1, u.l2, u.l3⟩

/-- Well-formedness: every limb is a 64-bit value. -/
def Wf (a : Int256) : Prop :=
  a.l0 < 2 ^ 64 ∧ a.l1 < 2 ^ 64 ∧ a.l2 < 2 ^ 64 ∧ a.l3 < 2 ^ 64

instance (a : Int256) : Decidable a.Wf := by
  unfold Wf; infer_instance

/-- Signed numeric value of the bit pattern. -/
def toInt (a : Int256) : Int := toZ 256 a.to_uint256.toNat

/-- Predicate Int256::is_zero. -/
def is_zero (a : Int256) : Bool :=
  a.l0 = 0 && a.l1 = 0 && a.l2 = 0 && a.l3 = 0

/-- Predicate Int256::is_negative: the source reads (l3 as i64) < 0, that is
the top bit of the highest limb. -/
def is_negative (a : Int256) : Bool := decide (2 ^ 63 ≤ a.l3)

/-- Predicate Int256::is_positive. -/
def is_positive (a : Int256) : Bool := !a.is_negative && !a.is_zero

/-- Sign function Int256::signum. -/
def signum (a : Int256) : Int256 :=
  if a.is_zero then ZERO else if a.is_negative then NEG_ONE else ONE

/-- 256-bit addition, the same carry chain as the unsigned type
(impl Add for Int256). -/
def add (a rhs : Int256) : Int256 :=
  let (l0, c0) := overflowing_add64 a.l0 rhs.l0
  let (l1, c1) := carrying_add64 a.l1 rhs.l1 c0
  let (l2, c2) := carrying_add64 a.l2 rhs.l2 c1
  let (l3, _) := carrying_add64 a.l3 rhs.l3 c2
  ⟨l0, l1, l2, l3⟩

/-- 256-bit subtraction, the same borrow chain as the unsigned type
(impl Sub for Int256). -/
def sub (a rhs : Int256) : Int256 :=
  let (l0, b0) := overflowing_sub64 a.l0 rhs.l0
  let (l1, b1) := borrowing_sub64 a.l1 rhs.l1 b0
  let (l2, b2) := borrowing_sub64 a.l2 rhs.l2 b1
  let (l3, _) := borrowing_sub64 a.l3 rhs.l3 b2
  ⟨l0, l1, l2, l3⟩

/-- Wrapping multiplication delegating to the unsigned low bits
(impl Mul for Int256). -/
def mul (a rhs : Int256) : Int256 :=
  from_uint256 (Uint256.mul a.to_uint256 rhs.to_uint256)

/-- Negation (impl Neg for Int256). -/
def neg (a : Int256) : Int256 := sub ZERO a

/-- Signed division with truncation toward zero (impl Div for Int256):
explicit division-by-zero panic modelled as none, then unsigned division on
magnitudes and a sign fix. -/
def div (a rhs : Int256) : Option Int256 :=
  if rhs.is_zero then none
  else
    let self_neg := a.is_negative
    let rhs_neg := rhs.is_negative
    let result_neg := Bool.xor self_neg rhs_neg
    let aU := if self_neg then (sub ZERO a).to_uint256 else a.to_uint256
    let bU := if rhs_neg then (sub ZERO rhs).to_uint256 else rhs.to_uint256
    (Uint256.div aU bU).map fun q =>
      let result := from_uint256 q
      if result_neg then sub ZERO result else result

/-- Signed remainder with the sign of the dividend (impl Rem for Int256),
computed as the magnitude identity r = a - q * b on the unsigned view. -/
def rem (a rhs : Int256) : Option Int256 :=
  if rhs.is_zero then none
  else
    let self_neg := a.is_negative
    let rhs_neg := rhs.is_negative
    let aU := if self_neg then (sub ZERO a).to_uint256 else a.to_uint256
    let bU := if rhs_neg then (sub ZERO rhs).to_uint256 else rhs.to_uint256
    (Uint256.div aU bU).map fun q =>
      let r := Uint256.sub aU (Uint256.mul q bU)
      let result := from_uint256 r
      if self_neg && !result.is_zero then sub ZERO result else result

/-- Arithmetic right shift (impl Shr for Int256): fills from the sign bit;
the source loop iterations are independent and are given per limb index. -/
def shr (a : Int256) (n : Nat) : Int256 :=
  if 256 ≤ n then (if a.is_negative then NEG_ONE else ZERO)
  else if n = 0 then a
  else
    let full := n / 64
    let bits := n % 64
    let sign_fill := if a.is_negative then 2 ^ 64 - 1 else 0
    let limbs := [a.l0, a.l1, a.l2, a.l3]
    let res := fun i =>
      if i < 4 - full then
        if bits = 0 then limbs.getD (i + full) 0
        else
          (limbs.getD (i + full) 0 >>> bits) |||
            (if i + full + 1 < 4 then (limbs.getD (i + full + 1) 0 <<< (64 - bits)) % 2 ^ 64
             else (sign_fill <<< (64 - bits)) % 2 ^ 64)
      else sign_fill
    ⟨res 0, res 1, res 2, res 3⟩

end Int256

/-- 128-bit signed integer stored as two 64-bit limbs (src/i128.rs,
struct Int128). -/
structure Int128 where
  l : Nat
  h : Nat
deriving DecidableEq

namespace Int128

/-- Constant Int128::ZERO. -/
def ZERO : Int128 := ⟨0, 0⟩

/-- Constant Int128::ONE. -/
def ONE : Int128 := ⟨1, 0⟩

/-- Constant Int128::NEG_ONE. -/
def NEG_ONE : Int128 := ⟨2 ^ 64 - 1, 2 ^ 64 - 1⟩

/-- Constant Int128::MIN. -/
def MIN : Int128 := ⟨0, 2 ^ 63⟩

/-- Constant Int128::MAX. -/
def MAX : Int128 := ⟨2 ^ 64 - 1, 2 ^ 63 - 1⟩

/-- Well-formedness: both limbs are 64-bit values. -/
def Wf (a : Int128) : Prop := a.l < 2 ^ 64 ∧ a.h < 2 ^ 64

instance (a : Int128) : Decidable a.Wf := by
  unfold Wf; infer_instance

/-- Conversion Int128::to_i128: combine the limbs into the 128-bit pattern
and read it as a signed value. -/
def to_i128 (a : Int128) : Int := toZ 128 ((a.h <<< 64 ||| a.l) % 2 ^ 128)

/-- Conversion Int128::from_i128: store the two-complement pattern of the
value split into low and high limbs. -/
def from_i128 (v : Int) : Int128 :=
  let pat := patZ 128 v
  ⟨pat % 2 ^ 64, pat / 2 ^ 64⟩

/-- Predicate Int128::is_zero. -/
def is_zero (a : Int128) : Bool := a.l = 0 && a.h = 0

/-- Predicate Int128::is_negative: the top bit of the high limb. -/
def is_negative (a : Int128) : Bool := decide (2 ^ 63 ≤ a.h)

/-- 128-bit addition carry chain (impl Add for Int128). -/
def add (a rhs : Int128) : Int128 :=
  let (l, c) := overflowing_add64 a.l rhs.l
  ⟨l, wrapping_add64 (wrapping_add64 a.h rhs.h) c.toNat⟩

/-- 128-bit multiplication keeping the low bits (impl Mul for Int128, with
the x86_64 mulx widening multiply modelled exactly). -/
def mul (a rhs : Int128) : Int128 :=
  let p0 := a.l * rhs.l
  let p0_lo := p0 % 2 ^ 64
  let p0_hi := p0 >>> 64
  let t1_lo := wrapping_mul64 a.l rhs.h
  let t2_lo := wrapping_mul64 a.h rhs.l
  ⟨p0_lo, wrapping_add64 (wrapping_add64 p0_hi t1_lo) t2_lo⟩

/-- Signed division delegating to native i128 (impl Div for Int128).  The
native operator panics on a zero divisor and on MIN / -1 (overflow); both
are modelled as none.  Rust signed division truncates toward zero, Int.tdiv. -/
def div (a rhs : Int128) : Option Int128 :=
  let x := a.to_i128
  let y := rhs.to_i128
  if y = 0 ∨ (x = -(2 ^ 127) ∧ y = -1) then none
  else some (from_i128 (Int.tdiv x y))

/-- Signed remainder delegating to native i128 (impl Rem for Int128); the
native operator panics on a zero divisor and on MIN % -1.  Rust % is the
truncating remainder, Int.tmod. -/
def rem (a rhs : Int128) : Option Int128 :=
  let x := a.to_i128
  let y := rhs.to_i128
  if y = 0 ∨ (x = -(2 ^ 127) ∧ y = -1) then none
  else some (from_i128 (Int.tmod x y))

/-- Arithmetic right shift (impl Shr for Int128).  The branches of the source
are transliterated; an arithmetic shift of an i64 value by k is floor
division by 2 ^ k (Int.fdiv), and `as u64` is the pattern truncation patZ. -/
def shr (a : Int128) (n : Nat) : Int128 :=
  if 128 ≤ n then (if a.is_negative then NEG_ONE else ZERO)
  else if 64 ≤ n then
    let hS := toZ 64 (a.h % 2 ^ 64)
    ⟨patZ 64 (hS.fdiv (2 ^ (n - 64))), patZ 64 (hS.fdiv (2 ^ 63))⟩
  else if n = 0 then a
  else
    let hS := toZ 64 (a.h % 2 ^ 64)
    ⟨(a.l >>> n) ||| (a.h <<< (64 - n)) % 2 ^ 64, patZ 64 (hS.fdiv (2 ^ n))⟩

end Int128

/-- 64-bit signed integer stored as two 32-bit limbs (src/i64.rs,
struct Int64). -/
structure Int64 where
  l : Nat
  h : Nat
deriving DecidableEq

namespace Int64

/-- Constant Int64::ZERO. -/
def ZERO : Int64 := ⟨0, 0⟩

/-- Constant Int64::ONE. -/
def ONE : Int64 := ⟨1, 0⟩

/-- Constant Int64::NEG_ONE. -/
def NEG_ONE : Int64 := ⟨2 ^ 32 - 1, 2 ^ 32 - 1⟩

/-- Constant Int64::MIN. -/
def MIN : Int64 := ⟨0, 2 ^ 31⟩

/-- Constant Int64::MAX. -/
def MAX : Int64 := ⟨2 ^ 32 - 1, 2 ^ 31 - 1⟩

/-- Well-formedness: both limbs are 32-bit values. -/
def Wf (a : Int64) : Prop := a.l < 2 ^ 32 ∧ a.h < 2 ^ 32

instance (a : Int64) : Decidable a.Wf := by
  unfold Wf; infer_instance

/-- Conversion Int64::to_i64: combine the limbs into the 64-bit pattern and
read it as a signed value. -/
def to_i64 (a : Int64) : Int := toZ 64 ((a.h <<< 32 ||| a.l) % 2 ^ 64)

/-- Conversion Int64::from_i64: store the two-complement pattern of the
value split into low and high limbs. -/
def from_i64 (v : Int) : Int64 :=
  let pat := patZ 64 v
  ⟨pat % 2 ^ 32, pat / 2 ^ 32⟩

/-- 64-bit addition carry chain (impl Add for Int64). -/
def add (a rhs : Int64) : Int64 :=
  let (l, c) := overflowing_add32 a.l rhs.l
  ⟨l, wrapping_add32 (wrapping_add32 a.h rhs.h) c.toNat⟩

/-- 64-bit multiplication keeping the low bits (impl Mul for Int64). -/
def mul (a rhs : Int64) : Int64 :=
  let p0 := a.l * rhs.l
  let p0_lo := p0 % 2 ^ 32
  let p0_hi := p0 >>> 32
  let t1 := wrapping_mul32 a.l rhs.h
  let t2 := wrapping_mul32 a.h rhs.l
  ⟨p0_lo, wrapping_add32 (wrapping_add32 p0_hi t1) t2⟩

/-- Signed division delegating to native i64 (impl Div for Int64); the
native operator panics on a zero divisor and on MIN / -1 (overflow). -/
def div (a rhs : Int64) : Option Int64 :=
  let x := a.to_i64
  let y := rhs.to_i64
  if y = 0 ∨ (x = -(2 ^ 63) ∧ y = -1) then none
  else some (from_i64 (Int.tdiv x y))

/-- Signed remainder delegating to native i64 (impl Rem for Int64); the
native operator panics on a zero divisor and on MIN % -1. -/
def rem (a rhs : Int64) : Option Int64 :=
  let x := a.to_i64
  let y := rhs.to_i64
  if y = 0 ∨ (x = -(2 ^ 63) ∧ y = -1) then none
  else some (from_i64 (Int.tmod x y))

end Int64

/-- 64-bit unsigned integer stored as two 32-bit limbs (src/u64/mod.rs,
struct Uint64). -/
structure Uint64 where
  l : Nat
  h : Nat
deriving DecidableEq

namespace Uint64

/-- Constant Uint64::ZERO. -/
def ZERO : Uint64 := ⟨0, 0⟩

/-- Well-formedness: both limbs are 32-bit values. -/
def Wf (a : Uint64) : Prop := a.l < 2 ^ 32 ∧ a.h < 2 ^ 32

instance (a : Uint64) : Decidable a.Wf := by
  unfold Wf; infer_instance

/-- Conversion Uint64::to_u64. -/
def to_u64 (a : Uint64) : Nat := (a.h <<< 32 ||| a.l) % 2 ^ 64

/-- Conversion Uint64::from_u64. -/
def from_u64 (v : Nat) : Uint64 := ⟨v % 2 ^ 32, v >>> 32 % 2 ^ 32⟩

/-- 64-bit addition carry chain (impl Add for Uint64). -/
def add (a rhs : Uint64) : Uint64 :=
  let (l, c) := overflowing_add32 a.l rhs.l
  ⟨l, wrapping_add32 (wrapping_add32 a.h rhs.h) c.toNat⟩

/-- 64-bit multiplication keeping the low bits (impl Mul for Uint64). -/
def mul (a rhs : Uint64) : Uint64 :=
  let p0 := a.l * rhs.l
  let p0_lo := p0 % 2 ^ 32
  let p0_hi := p0 >>> 32
  let t1 := wrapping_mul32 a.l rhs.h
  let t2 := wrapping_mul32 a.h rhs.l
  ⟨p0_lo, wrapping_add32 (wrapping_add32 p0_hi t1) t2⟩

/-- Division delegating to native u64 (impl Div for Uint64); the native
operator panics exactly on a zero divisor. -/
def div (a rhs : Uint64) : Option Uint64 :=
  if rhs.to_u64 = 0 then none else some (from_u64 (a.to_u64 / rhs.to_u64))

/-- Remainder delegating to native u64 (impl Rem for Uint64); the native
operator panics exactly on a zero divisor. -/
def rem (a rhs : Uint64) : Option Uint64 :=
  if rhs.to_u64 = 0 then none else some (from_u64 (a.to_u64 % rhs.to_u64))

end Uint64

/-- 128-bit unsigned integer stored as two 64-bit limbs (src/u128.rs,
struct Uint128). -/
structure Uint128 where
  l : Nat
  h : Nat
deriving DecidableEq

namespace Uint128

/-- Constant zero value of Uint128. -/
def ZERO : Uint128 := ⟨0, 0⟩

/-- Well-formedness: both limbs are 64-bit values. -/
def Wf (a : Uint128) : Prop := a.l < 2 ^ 64 ∧ a.h < 2 ^ 64

instance (a : Uint128) : Decidable a.Wf := by
  unfold Wf; infer_instance

/-- Numeric value of the two limbs. -/
def toNat (a : Uint128) : Nat := a.h <<< 64 ||| a.l

/-- 128-bit addition carry chain (impl Add for Uint128). -/
def add (a rhs : Uint128) : Uint128 :=
  let (l, c) := overflowing_add64 a.l rhs.l
  ⟨l, wrapping_add64 (wrapping_add64 a.h rhs.h) c.toNat⟩

/-- 128-bit multiplication keeping the low bits (impl Mul for Uint128, with
the x86_64 mulx widening multiply modelled exactly). -/
def mul (a rhs : Uint128) : Uint128 :=
  let p0 := a.l * rhs.l
  let p0_lo := p0 % 2 ^ 64
  let p0_hi := p0 >>> 64
  let t1_lo := wrapping_mul64 a.l rhs.h
  let t2_lo := wrapping_mul64 a.h rhs.l
  ⟨p0_lo, wrapping_add64 (wrapping_add64 p0_hi t1_lo) t2_lo⟩

/-- Division delegating to native u128 (impl Div for Uint128); the native
operator panics exactly on a zero divisor. -/
def div (a rhs : Uint128) : Option Uint128 :=
  let n := a.h <<< 64 ||| a.l
  let d := rhs.h <<< 64 ||| rhs.l
  if d = 0 then none else some ⟨n / d % 2 ^ 64, (n / d) >>> 64 % 2 ^ 64⟩

/-- Remainder delegating to native u128 (impl Rem for Uint128); the native
operator panics exactly on a zero divisor. -/
def rem (a rhs : Uint128) : Option Uint128 :=
  let n := a.h <<< 64 ||| a.l
  let d := rhs.h <<< 64 ||| rhs.l
  if d = 0 then none else some ⟨n % d % 2 ^ 64, (n % d) >>> 64 % 2 ^ 64⟩

end Uint128

/-!
Helper lemmas shared by the claim theorems.
-/

/-- Recombination of a high word shifted past a low word: when the low word
fits below the shift, the bitwise or is plain addition. -/
theorem lor_high_low (a b k : Nat) (hb : b < 2 ^ k) :
    (a <<< k) ||| b = a * 2 ^ k + b := by
  rw [Nat.shiftLeft_eq, Nat.mul_comm, Nat.mul_add_lt_is_or hb]

end Bigints

namespace Bigints

/-- Claim C10: for every Int256 value exactly one of is_zero, is_positive,
is_negative holds, and signum returns ZERO, ONE or NEG_ONE respectively in
those three cases. -/
theorem int256_sign_trichotomy_signum (x : Int256) :
    (x.is_zero = true ∧ x.is_positive = false ∧ x.is_negative = false ∧
      x.signum = Int256.ZERO)
    ∨ (x.is_zero = false ∧ x.is_positive = true ∧ x.is_negative = false ∧
      x.signum = Int256.ONE)
    ∨ (x.is_zero = false ∧ x.is_positive = false ∧ x.is_negative = true ∧
      x.signum = Int256.NEG_ONE) := by
  by_cases hz : x.is_zero
  · have hnn : x.is_negative = false := by
      rcases x with ⟨a, b, c, d⟩
      simp only [Int256.is_zero, Bool.and_eq_true, decide_eq_true_eq] at hz
      rw [show d = 0 from hz.2]
      rfl
    left
    exact ⟨hz, by simp [Int256.is_positive, hz], hnn, by simp [Int256.signum, hz]⟩
  · by_cases hn : x.is_negative
    · right; right
      refine ⟨by simp [hz], ?_, hn, ?_⟩
      · simp [Int256.is_positive, hn]
      · simp [Int256.signum, hz, hn]
    · right; left
      refine ⟨by simp [hz], ?_, by simp [hn], ?_⟩
      · simp [Int256.is_positive, hn, hz]
      · simp [Int256.signum, hz, hn]

/-- Claim C3: for every width and both signednesses, division and remainder
with a zero divisor are the fatal division-by-zero condition (modelled as
none), never a wrapped value; in particular Uint256 division by zero. -/
theorem div_rem_by_zero_fatal_all_widths :
    (∀ a : Uint256, Uint256.div a Uint256.ZERO = none)
    ∧ (∀ a : Uint64, Uint64.div a Uint64.ZERO = none)
    ∧ (∀ a : Uint64, Uint64.rem a Uint64.ZERO = none)
    ∧ (∀ a : Uint128, Uint128.div a Uint128.ZERO = none)
    ∧ (∀ a : Uint128, Uint128.rem a Uint128.ZERO = none)
    ∧ (∀ a : Int64, Int64.div a Int64.ZERO = none)
    ∧ (∀ a : Int64, Int64.rem a Int64.ZERO = none)
    ∧ (∀ a : Int128, Int128.div a Int128.ZERO = none)
    ∧ (∀ a : Int128, Int128.rem a Int128.ZERO = none)
    ∧ (∀ a : Int256, Int256.div a Int256.ZERO = none)
    ∧ (∀ a : Int256, Int256.rem a Int256.ZERO = none) := by
  refine ⟨?_, ?_, ?_, ?_, ?_, ?_, ?_, ?_, ?_, ?_, ?_⟩ <;> intro a
  · simp [Uint256.div, Uint256.ZERO, Uint256.div_by_u64, div_u128_by_u64]
  · simp [Uint64.div, Uint64.ZERO, Uint64.to_u64]
  · simp [Uint64.rem, Uint64.ZERO, Uint64.to_u64]
  · simp [Uint128.div, Uint128.ZERO]
  · simp [Uint128.rem, Uint128.ZERO]
  · simp [Int64.div, Int64.ZERO, Int64.to_i64, toZ]
  · simp [Int64.rem, Int64.ZERO, Int64.to_i64, toZ]
  · simp [Int128.div, Int128.ZERO, Int128.to_i128, toZ]
  · simp [Int128.rem, Int128.ZERO, Int128.to_i128, toZ]
  · simp [Int256.div, Int256.ZERO, Int256.is_zero]
  · simp [Int256.rem, Int256.ZERO, Int256.is_zero]

/-- Claim C4 counterexample: at the widths 64 and 128 the division operator
delegates to the native signed division, and MIN / -1 is the native overflow
panic (modelled none), not a wraparound result, refuting the claim for those
widths. -/
theorem int64_int128_min_div_neg_one_fails :
    Int64.div Int64.MIN Int64.NEG_ONE = none
    ∧ Int128.div Int128.MIN Int128.NEG_ONE = none := by decide

/-- Claim C4 as amended: MIN / -1 wraps around to MIN without a failure for
Int256 (whose division computes on unsigned magnitudes), while Int64 and
Int128 delegate to native division where MIN / -1 is an overflow panic. -/
theorem min_div_neg_one_wraparound_amended :
    Int256.div Int256.MIN Int256.NEG_ONE = some Int256.MIN
    ∧ Int256.rem Int256.MIN Int256.NEG_ONE = some Int256.ZERO
    ∧ Int64.div Int64.MIN Int64.NEG_ONE = none
    ∧ Int64.rem Int64.MIN Int64.NEG_ONE = none
    ∧ Int128.div Int128.MIN Int128.NEG_ONE = none
    ∧ Int128.rem Int128.MIN Int128.NEG_ONE = none := by decide

/-- Claim C1: the division operator does not always return the floor
quotient.  On the two-limb-divisor path with an already normalized divisor
(shift = 0), div_u256_by_u128 computes lo >> 128, an out-of-range u128 shift
(debug builds panic; release masks it to lo >> 0), corrupting the top half of
the normalized numerator: at dividend 2 ^ 255 + 1 and divisor 2 ^ 127 + 1 the
code returns 2 ^ 128 - 1 while the floor quotient is 2 ^ 128 - 2. -/
theorem uint256_div_u128_path_wrong_quotient :
    Uint256.div ⟨1, 0, 0, 2 ^ 63⟩ ⟨1, 2 ^ 63, 0, 0⟩ =
      some ⟨2 ^ 64 - 1, 2 ^ 64 - 1, 0, 0⟩
    ∧ Uint256.toNat ⟨1, 0, 0, 2 ^ 63⟩ = 2 ^ 255 + 1
    ∧ Uint256.toNat ⟨1, 2 ^ 63, 0, 0⟩ = 2 ^ 127 + 1
    ∧ Uint256.toNat ⟨1, 0, 0, 2 ^ 63⟩ / Uint256.toNat ⟨1, 2 ^ 63, 0, 0⟩ =
      2 ^ 128 - 2
    ∧ Uint256.toNat ⟨2 ^ 64 - 1, 2 ^ 64 - 1, 0, 0⟩ = 2 ^ 128 - 1 := by decide

/-- Claim C5: the division identity package fails on the code.  At the
positive Int256 dividend 2 ^ 254 + 1 and positive divisor 2 ^ 127 + 1 the
buggy division path makes the remainder negative with magnitude 2 ^ 128,
violating both the remainder-sign rule and the bound on its magnitude; and at
width 64 the pair (MIN, -1) makes division itself fail, so no quotient and
remainder exist at all for that non-zero divisor. -/
theorem int256_div_rem_identity_violated :
    Int256.rem ⟨1, 0, 0, 2 ^ 62⟩ ⟨1, 2 ^ 63, 0, 0⟩ =
      some ⟨0, 0, 2 ^ 64 - 1, 2 ^ 64 - 1⟩
    ∧ Int256.is_positive ⟨1, 0, 0, 2 ^ 62⟩ = true
    ∧ Int256.is_positive ⟨1, 2 ^ 63, 0, 0⟩ = true
    ∧ Int256.is_negative ⟨0, 0, 2 ^ 64 - 1, 2 ^ 64 - 1⟩ = true
    ∧ Int256.toInt ⟨0, 0, 2 ^ 64 - 1, 2 ^ 64 - 1⟩ = -(2 ^ 128)
    ∧ Int256.toInt ⟨1, 2 ^ 63, 0, 0⟩ = 2 ^ 127 + 1
    ∧ Int64.div Int64.MIN Int64.NEG_ONE = none
    ∧ Int64.to_i64 Int64.NEG_ONE ≠ 0 := by decide

/-- Claim C9: with a non-zero one-limb divisor, every one of the four
hardware divisions inside div_by_u64 sees a numerator high half below the
divisor (the running remainder is always below d), so the hardware overflow
fault is unreachable and div_by_u64 returns a quotient. -/
theorem div_by_u64_total_nonzero_divisor (a : Uint256) (d : Nat)
    (hd : d ≠ 0) (hdw : d < 2 ^ 64) (ha : a.Wf) :
    ∃ q, Uint256.div_by_u64 a d = some q := by
  obtain ⟨h0, h1, h2, h3⟩ := ha
  have hdpos : 0 < d := Nat.pos_of_ne_zero hd
  have first : div_u128_by_u64 a.l3 d = some (a.l3 / d, a.l3 % d) := by
    rw [div_u128_by_u64, if_pos]
    exact ⟨hd, by omega⟩
  have step : ∀ r x, r < d → x < 2 ^ 64 →
      div_u128_by_u64 (r <<< 64 ||| x) d =
        some ((r * 2 ^ 64 + x) / d, (r * 2 ^ 64 + x) % d) := by
    intro r x hr hx
    rw [div_u128_by_u64, lor_high_low _ _ _ hx, if_pos]
    exact ⟨hd, by omega⟩
  simp only [Uint256.div_by_u64, first, step _ _ (Nat.mod_lt _ hdpos) h2,
    step _ _ (Nat.mod_lt _ hdpos) h1, step _ _ (Nat.mod_lt _ hdpos) h0,
    Option.bind_eq_bind, Option.some_bind]
  exact ⟨_, rfl⟩

/-- Witness for claim C9 at a concrete input. -/
theorem div_by_u64_total_nonzero_divisor_witness :
    ∃ q, Uint256.div_by_u64 ⟨5, 6, 7, 8⟩ 3 = some q :=
  div_by_u64_total_nonzero_divisor ⟨5, 6, 7, 8⟩ 3 (by decide) (by decide)
    (by decide)

/-- Claim C7: the arithmetic right shift fills with the replicated sign bit:
a shift amount at least the width yields zero for a non-negative value and
all-one bits (the value -1) for a negative value, and shifting a negative
value right by width - 1 yields all-one bits; at width 256 (Int256) and
width 128 (Int128). -/
theorem arithmetic_shift_right_sign_fill :
    (∀ (x : Int256) (n : Nat), 256 ≤ n →
      Int256.shr x n = (if x.is_negative then Int256.NEG_ONE else Int256.ZERO))
    ∧ (∀ x : Int256, x.Wf → x.is_negative = true →
      Int256.shr x 255 = Int256.NEG_ONE)
    ∧ (∀ (x : Int128) (n : Nat), 128 ≤ n →
      Int128.shr x n = (if x.is_negative then Int128.NEG_ONE else Int128.ZERO))
    ∧ (∀ x : Int128, x.Wf → x.is_negative = true →
      Int128.shr x 127 = Int128.NEG_ONE) := by
  refine ⟨?_, ?_, ?_, ?_⟩
  · intro x n h
    rw [Int256.shr, if_pos h]
  · intro x hw hneg
    rcases x with ⟨a, b, c, d⟩
    have h3 : d < 2 ^ 64 := hw.2.2.2
    have hd : 2 ^ 63 ≤ d := by simpa [Int256.is_negative] using hneg
    have hbit : d >>> 63 = 1 := by omega
    simp only [Int256.shr, hneg, Int256.NEG_ONE]
    norm_num [List.getD]
    rw [hbit]
    decide
  · intro x n h
    rw [Int128.shr, if_pos h]
  · intro x hw hneg
    rcases x with ⟨l, h⟩
    have hh : h < 2 ^ 64 := hw.2
    have hd : 2 ^ 63 ≤ h := by simpa [Int128.is_negative] using hneg
    have hfd : (toZ 64 (h % 2 ^ 64)).fdiv (2 ^ 63) = -1 := by
      rw [Nat.mod_eq_of_lt hh, toZ, if_neg (by omega),
        Int.fdiv_eq_ediv _ (by positivity)]
      omega
    simp only [Int128.shr, Int128.NEG_ONE]
    norm_num
    norm_num at hfd
    rw [hfd]
    decide

/-- Witness for claim C7 at concrete inputs. -/
theorem arithmetic_shift_right_sign_fill_witness :
    Int256.shr ⟨1, 2, 3, 2 ^ 63⟩ 255 = Int256.NEG_ONE
    ∧ Int128.shr ⟨7, 2 ^ 63⟩ 127 = Int128.NEG_ONE
    ∧ Int256.shr ⟨1, 2, 3, 2 ^ 63⟩ 300 = Int256.NEG_ONE :=
  ⟨arithmetic_shift_right_sign_fill.2.1 ⟨1, 2, 3, 2 ^ 63⟩ (by decide) (by decide),
   arithmetic_shift_right_sign_fill.2.2.2 ⟨7, 2 ^ 63⟩ (by decide) (by decide),
   by rw [arithmetic_shift_right_sign_fill.1 ⟨1, 2, 3, 2 ^ 63⟩ 300 (by decide)]
      decide⟩

/-- Bool-to-Nat of a decidable test as an if-expression, a shape the omega
preprocessor understands. -/
theorem bool_toNat_decide (p : Prop) [Decidable p] :
    (decide p).toNat = if p then 1 else 0 := by
  by_cases h : p <;> simp [h]

/-- Value bound of a well-formed Uint256. -/
theorem Uint256.toNat_lt (a : Uint256) (h : a.Wf) : a.toNat < 2 ^ 256 := by
  obtain ⟨h0, h1, h2, h3⟩ := h
  rw [Uint256.toNat]
  omega

/-- Well-formed limb vectors are determined by their value. -/
theorem Uint256.toNat_inj {a b : Uint256} (ha : a.Wf) (hb : b.Wf)
    (h : a.toNat = b.toNat) : a = b := by
  rcases a with ⟨a0, a1, a2, a3⟩
  rcases b with ⟨b0, b1, b2, b3⟩
  have ha0 : a0 < 2 ^ 64 := ha.1
  have ha1 : a1 < 2 ^ 64 := ha.2.1
  have ha2 : a2 < 2 ^ 64 := ha.2.2.1
  have ha3 : a3 < 2 ^ 64 := ha.2.2.2
  have hb0 : b0 < 2 ^ 64 := hb.1
  have hb1 : b1 < 2 ^ 64 := hb.2.1
  have hb2 : b2 < 2 ^ 64 := hb.2.2.1
  have hb3 : b3 < 2 ^ 64 := hb.2.2.2
  simp only [Uint256.toNat] at h
  simp only [Uint256.mk.injEq]
  omega

/-- The carry-chain addition computes the wrapped 256-bit sum and preserves
well-formedness. -/
theorem Uint256.add_toNat (a b : Uint256) (ha : a.Wf) (hb : b.Wf) :
    (Uint256.add a b).toNat = (a.toNat + b.toNat) % 2 ^ 256
    ∧ (Uint256.add a b).Wf := by
  rcases a with ⟨a0, a1, a2, a3⟩
  rcases b with ⟨b0, b1, b2, b3⟩
  have ha0 : a0 < 2 ^ 64 := ha.1
  have ha1 : a1 < 2 ^ 64 := ha.2.1
  have ha2 : a2 < 2 ^ 64 := ha.2.2.1
  have ha3 : a3 < 2 ^ 64 := ha.2.2.2
  have hb0 : b0 < 2 ^ 64 := hb.1
  have hb1 : b1 < 2 ^ 64 := hb.2.1
  have hb2 : b2 < 2 ^ 64 := hb.2.2.1
  have hb3 : b3 < 2 ^ 64 := hb.2.2.2
  simp only [Uint256.add, overflowing_add64, carrying_add64, bool_toNat_decide,
    Uint256.toNat, Uint256.Wf]
  split_ifs <;> constructor <;> omega

/-- The borrow-chain subtraction computes the wrapped 256-bit difference and
preserves well-formedness. -/
theorem Uint256.sub_toNat (a b : Uint256) (ha : a.Wf) (hb : b.Wf) :
    (Uint256.sub a b).toNat = (a.toNat + 2 ^ 256 - b.toNat) % 2 ^ 256
    ∧ (Uint256.sub a b).Wf := by
  rcases a with ⟨a0, a1, a2, a3⟩
  rcases b with ⟨b0, b1, b2, b3⟩
  have ha0 : a0 < 2 ^ 64 := ha.1
  have ha1 : a1 < 2 ^ 64 := ha.2.1
  have ha2 : a2 < 2 ^ 64 := ha.2.2.1
  have ha3 : a3 < 2 ^ 64 := ha.2.2.2
  have hb0 : b0 < 2 ^ 64 := hb.1
  have hb1 : b1 < 2 ^ 64 := hb.2.1
  have hb2 : b2 < 2 ^ 64 := hb.2.2.1
  have hb3 : b3 < 2 ^ 64 := hb.2.2.2
  simp only [Uint256.sub, overflowing_sub64, borrowing_sub64, bool_toNat_decide,
    Uint256.toNat, Uint256.Wf]
  split_ifs <;> constructor <;> omega

/-- Column sum of two partial products plus an incoming carry, tracked in
128 bits with two overflow flags: the wrapped sum is the plain sum modulo
2 ^ 128 and the flags recover its high part, so the next carry is the exact
shifted sum. -/
theorem mul_column_chain2 (c p q : Nat) (hc : c < 2 ^ 64)
    (hp : p ≤ (2 ^ 64 - 1) ^ 2) (hq : q ≤ (2 ^ 64 - 1) ^ 2) :
    ((c + p) % 2 ^ 128 + q) % 2 ^ 128 = (c + p + q) % 2 ^ 128
    ∧ (c + p + q) % 2 ^ 128 / 2 ^ 64 +
      ((if 2 ^ 128 ≤ c + p then 1 else 0) +
        (if 2 ^ 128 ≤ (c + p) % 2 ^ 128 + q then 1 else 0)) * 2 ^ 64
      = (c + p + q) / 2 ^ 64 := by
  refine ⟨by omega, ?_⟩
  split_ifs <;> omega

/-- Column sum of three partial products plus an incoming carry, tracked in
128 bits with three overflow flags. -/
theorem mul_column_chain3 (c p q r : Nat) (hc : c < 2 ^ 65)
    (hp : p ≤ (2 ^ 64 - 1) ^ 2) (hq : q ≤ (2 ^ 64 - 1) ^ 2)
    (hr : r ≤ (2 ^ 64 - 1) ^ 2) :
    (((c + p) % 2 ^ 128 + q) % 2 ^ 128 + r) % 2 ^ 128 = (c + p + q + r) % 2 ^ 128
    ∧ (c + p + q + r) % 2 ^ 128 / 2 ^ 64 +
      ((if 2 ^ 128 ≤ c + p then 1 else 0) +
        (if 2 ^ 128 ≤ (c + p) % 2 ^ 128 + q then 1 else 0) +
        (if 2 ^ 128 ≤ ((c + p) % 2 ^ 128 + q) % 2 ^ 128 + r then 1 else 0)) * 2 ^ 64
      = (c + p + q + r) / 2 ^ 64 := by
  refine ⟨by omega, ?_⟩
  split_ifs <;> omega

/-- The column multiplication computes the low 256 bits of the product: the
ten partial products are organized in columns by limb-index sum, each column
sum tracked in 128 bits with explicit overflow flags folded into the next
column. -/
theorem Uint256.mul_adx_toNat (a b : Uint256) (ha : a.Wf) (hb : b.Wf) :
    (Uint256.mul_adx a b).toNat = a.toNat * b.toNat % 2 ^ 256 := by
  rcases a with ⟨a0, a1, a2, a3⟩
  rcases b with ⟨b0, b1, b2, b3⟩
  have ha0 : a0 < 2 ^ 64 := ha.1
  have ha1 : a1 < 2 ^ 64 := ha.2.1
  have ha2 : a2 < 2 ^ 64 := ha.2.2.1
  have ha3 : a3 < 2 ^ 64 := ha.2.2.2
  have hb0 : b0 < 2 ^ 64 := hb.1
  have hb1 : b1 < 2 ^ 64 := hb.2.1
  have hb2 : b2 < 2 ^ 64 := hb.2.2.1
  have hb3 : b3 < 2 ^ 64 := hb.2.2.2
  have key : (a0 + a1 * 2 ^ 64 + a2 * 2 ^ 128 + a3 * 2 ^ 192) *
      (b0 + b1 * 2 ^ 64 + b2 * 2 ^ 128 + b3 * 2 ^ 192)
      = a0 * b0 + (a0 * b1 + a1 * b0) * 2 ^ 64
        + (a0 * b2 + a1 * b1 + a2 * b0) * 2 ^ 128
        + (a0 * b3 + a1 * b2 + a2 * b1 + a3 * b0) * 2 ^ 192
        + (a1 * b3 + a2 * b2 + a3 * b1 + (a2 * b3 + a3 * b2) * 2 ^ 64
          + a3 * b3 * 2 ^ 128) * 2 ^ 256 := by ring
  have h00 : a0 * b0 ≤ (2 ^ 64 - 1) ^ 2 := by
    rw [Nat.pow_two]
    exact Nat.mul_le_mul (by omega) (by omega)
  have h01 : a0 * b1 ≤ (2 ^ 64 - 1) ^ 2 := by
    rw [Nat.pow_two]
    exact Nat.mul_le_mul (by omega) (by omega)
  have h10 : a1 * b0 ≤ (2 ^ 64 - 1) ^ 2 := by
    rw [Nat.pow_two]
    exact Nat.mul_le_mul (by omega) (by omega)
  have h02 : a0 * b2 ≤ (2 ^ 64 - 1) ^ 2 := by
    rw [Nat.pow_two]
    exact Nat.mul_le_mul (by omega) (by omega)
  have h11 : a1 * b1 ≤ (2 ^ 64 - 1) ^ 2 := by
    rw [Nat.pow_two]
    exact Nat.mul_le_mul (by omega) (by omega)
  have h20 : a2 * b0 ≤ (2 ^ 64 - 1) ^ 2 := by
    rw [Nat.pow_two]
    exact Nat.mul_le_mul (by omega) (by omega)
  simp only [Uint256.mul_adx, overflowing_add128, bool_toNat_decide,
    wrapping_add64, wrapping_mul64, Uint256.toNat, Nat.shiftLeft_eq,
    Nat.shiftRight_eq_div_pow]
  rw [key]
  generalize hp00 : a0 * b0 = p00
  generalize hp01 : a0 * b1 = p01
  generalize hp10 : a1 * b0 = p10
  generalize hp02 : a0 * b2 = p02
  generalize hp11 : a1 * b1 = p11
  generalize hp20 : a2 * b0 = p20
  generalize hp03 : a0 * b3 = p03
  generalize hp12 : a1 * b2 = p12
  generalize hp21 : a2 * b1 = p21
  generalize hp30 : a3 * b0 = p30
  generalize hJ : a1 * b3 + a2 * b2 + a3 * b1 + (a2 * b3 + a3 * b2) * 2 ^ 64
    + a3 * b3 * 2 ^ 128 = J
  rw [hp00] at h00
  rw [hp01] at h01
  rw [hp10] at h10
  rw [hp02] at h02
  rw [hp11] at h11
  rw [hp20] at h20
  have hc1 : p00 / 2 ^ 64 < 2 ^ 64 := by omega
  have cA := mul_column_chain2 (p00 / 2 ^ 64) p01 p10 hc1 h01 h10
  rw [cA.1, cA.2]
  have hc2 : (p00 / 2 ^ 64 + p01 + p10) / 2 ^ 64 < 2 ^ 65 := by omega
  have cB := mul_column_chain3 ((p00 / 2 ^ 64 + p01 + p10) / 2 ^ 64) p02 p11 p20
    hc2 h02 h11 h20
  rw [cB.1, cB.2]
  omega

/-- Multiplication output limbs are reduced modulo 2 ^ 64, hence
well-formed. -/
theorem Uint256.mul_adx_wf (a b : Uint256) : (Uint256.mul_adx a b).Wf := by
  rcases a with ⟨a0, a1, a2, a3⟩
  rcases b with ⟨b0, b1, b2, b3⟩
  simp only [Uint256.mul_adx, wrapping_add64, Uint256.Wf]
  refine ⟨?_, ?_, ?_, ?_⟩ <;> apply Nat.mod_lt <;> norm_num

/-- Claim C2: multiplication returns the low 256 bits of the exact product
(multiplication modulo 2 ^ 256) for all well-formed operands; the portable
fallback computes the same function as the x86_64 path; and the all-ones
value times two is the all-ones value minus one. -/
theorem uint256_mul_low_256_bits (a b : Uint256) (ha : a.Wf) (hb : b.Wf) :
    (Uint256.mul a b).toNat = a.toNat * b.toNat % 2 ^ 256
    ∧ Uint256.mul_portable a b = Uint256.mul_adx a b
    ∧ Uint256.mul ⟨2 ^ 64 - 1, 2 ^ 64 - 1, 2 ^ 64 - 1, 2 ^ 64 - 1⟩ ⟨2, 0, 0, 0⟩ =
      ⟨2 ^ 64 - 2, 2 ^ 64 - 1, 2 ^ 64 - 1, 2 ^ 64 - 1⟩
    ∧ Uint256.toNat ⟨2 ^ 64 - 2, 2 ^ 64 - 1, 2 ^ 64 - 1, 2 ^ 64 - 1⟩ =
      Uint256.toNat ⟨2 ^ 64 - 1, 2 ^ 64 - 1, 2 ^ 64 - 1, 2 ^ 64 - 1⟩ - 1 :=
  ⟨Uint256.mul_adx_toNat a b ha hb, rfl, by decide, by decide⟩

/-- Witness for claim C2 at a concrete input. -/
theorem uint256_mul_low_256_bits_witness :
    (Uint256.mul ⟨3, 0, 0, 0⟩ ⟨5, 0, 0, 0⟩).toNat =
      Uint256.toNat ⟨3, 0, 0, 0⟩ * Uint256.toNat ⟨5, 0, 0, 0⟩ % 2 ^ 256 :=
  (uint256_mul_low_256_bits ⟨3, 0, 0, 0⟩ ⟨5, 0, 0, 0⟩ (by decide) (by decide)).1

/-- Claim C8: the wrapping ring laws on Uint256: commutativity of addition
and multiplication, subtraction undoes addition, and self-subtraction is
zero. -/
theorem uint256_ring_laws (a b : Uint256) (ha : a.Wf) (hb : b.Wf) :
    Uint256.add a b = Uint256.add b a
    ∧ Uint256.mul a b = Uint256.mul b a
    ∧ Uint256.sub (Uint256.add a b) b = a
    ∧ Uint256.sub a a = Uint256.ZERO := by
  have hab := Uint256.add_toNat a b ha hb
  have hba := Uint256.add_toNat b a hb ha
  have haw := Uint256.toNat_lt a ha
  have hbw := Uint256.toNat_lt b hb
  refine ⟨?_, ?_, ?_, ?_⟩
  · exact Uint256.toNat_inj hab.2 hba.2 (by rw [hab.1, hba.1, Nat.add_comm])
  · exact Uint256.toNat_inj (Uint256.mul_adx_wf a b) (Uint256.mul_adx_wf b a)
      (by rw [show Uint256.mul a b = Uint256.mul_adx a b from rfl,
            show Uint256.mul b a = Uint256.mul_adx b a from rfl,
            Uint256.mul_adx_toNat a b ha hb, Uint256.mul_adx_toNat b a hb ha,
            Nat.mul_comm])
  · have hs := Uint256.sub_toNat (Uint256.add a b) b hab.2 hb
    refine Uint256.toNat_inj hs.2 ha ?_
    rw [hs.1, hab.1]
    omega
  · have hs := Uint256.sub_toNat a a ha ha
    refine Uint256.toNat_inj hs.2 (by decide) ?_
    rw [hs.1]
    have : Uint256.toNat Uint256.ZERO = 0 := by decide
    omega

/-- The refinement loop never increments the trial digit. -/
theorem refine_qhat_le (pref dHi dNext nxt : Nat) :
    ∀ q, refine_qhat pref dHi dNext nxt q ≤ q := by
  intro q
  induction q with
  | zero => simp [refine_qhat]
  | succ k ih =>
    simp only [refine_qhat]
    split_ifs
    · exact Nat.le_refl _
    · exact Nat.le_refl _
    · exact Nat.le_trans ih (Nat.le_succ k)

/-- Once the exit test holds at a digit value m, the loop never descends
below m. -/
theorem refine_qhat_ge (pref dHi dNext nxt m : Nat)
    (hm : 2 ^ 64 - 1 < wrapping_sub128 pref (m * dHi % 2 ^ 128)
      ∨ m * dNext ≤ (wrapping_sub128 pref (m * dHi % 2 ^ 128) <<< 64) ||| nxt) :
    ∀ q, m ≤ q → m ≤ refine_qhat pref dHi dNext nxt q := by
  intro q
  induction q with
  | zero => intro h; simpa [refine_qhat] using h
  | succ k ih =>
    intro hmq
    simp only [refine_qhat]
    split_ifs with hA hB
    · exact hmq
    · exact hmq
    · apply ih
      rcases Nat.lt_or_ge m (k + 1) with h | h
      · omega
      · have hmk : m = k + 1 := by omega
        subst hmk
        rcases hm with hm | hm
        · exact absurd hm hA
        · exact absurd hm hB

/-- Claim C6: in the Knuth Algorithm D paths, after normalization, the
quotient-digit refinement loop decrements the trial digit at most twice and
never increments it.  The hypotheses are the invariants holding at every
digit position of both Knuth paths: the normalized divisor top limb has its
high bit set, the second divisor limb and the low remainder words are 64-bit
values, and the remainder top limb does not exceed the divisor top limb.
The subsequent multiply-and-subtract triggers at most one add-back by
construction: the add-back in the source is a single conditional, not a
loop. -/
theorem knuth_refine_loop_at_most_two_decrements
    (dHi dNext rHi rLo nxt : Nat)
    (h1 : 2 ^ 63 ≤ dHi) (h2 : dHi < 2 ^ 64) (h3 : dNext < 2 ^ 64)
    (h4 : rLo < 2 ^ 64) (h5 : nxt < 2 ^ 64) (h6 : rHi ≤ dHi) :
    estimate_qhat rHi rLo dHi - 2 ≤
      refine_qhat (rHi <<< 64 ||| rLo) dHi dNext nxt (estimate_qhat rHi rLo dHi)
    ∧ refine_qhat (rHi <<< 64 ||| rLo) dHi dNext nxt (estimate_qhat rHi rLo dHi) ≤
      estimate_qhat rHi rLo dHi := by
  refine ⟨?_, refine_qhat_le _ _ _ _ _⟩
  have hpref : rHi <<< 64 ||| rLo = rHi * 2 ^ 64 + rLo := lor_high_low rHi rLo 64 h4
  rw [hpref]
  have hpref128 : rHi * 2 ^ 64 + rLo < 2 ^ 128 := by omega
  -- the initial estimate is at most the maximum digit and q0 * dHi ≤ pref
  have hq0 : estimate_qhat rHi rLo dHi ≤ 2 ^ 64 - 1
      ∧ estimate_qhat rHi rLo dHi * dHi ≤ rHi * 2 ^ 64 + rLo := by
    by_cases hcap : dHi ≤ rHi
    · rw [estimate_qhat, if_pos hcap]
      have hrd : rHi = dHi := Nat.le_antisymm h6 hcap
      refine ⟨Nat.le_refl _, ?_⟩
      calc (2 ^ 64 - 1) * dHi ≤ 2 ^ 64 * dHi := Nat.mul_le_mul_right dHi (by omega)
      _ = dHi * 2 ^ 64 := Nat.mul_comm _ _
      _ ≤ rHi * 2 ^ 64 + rLo := by rw [hrd]; exact Nat.le_add_right _ _
    · have hlt : (rHi * 2 ^ 64 + rLo) / dHi < 2 ^ 64 := by
        apply Nat.div_lt_of_lt_mul
        have : rHi + 1 ≤ dHi := by omega
        calc rHi * 2 ^ 64 + rLo < rHi * 2 ^ 64 + 2 ^ 64 := by omega
        _ = (rHi + 1) * 2 ^ 64 := by ring
        _ ≤ dHi * 2 ^ 64 := Nat.mul_le_mul_right _ this
      rw [estimate_qhat, if_neg hcap, hpref, Nat.mod_eq_of_lt hlt]
      exact ⟨by omega, Nat.div_mul_le_self _ _⟩
  set q0 := estimate_qhat rHi rLo dHi with hq0def
  rcases Nat.lt_or_ge q0 2 with htwo | htwo
  · have : q0 - 2 = 0 := by omega
    rw [this]
    exact Nat.zero_le _
  · set m := q0 - 2 with hmdef
    have hm2 : m + 2 = q0 := by omega
    have hmle : m ≤ q0 := by omega
    have hmd : m * dHi ≤ rHi * 2 ^ 64 + rLo :=
      Nat.le_trans (Nat.mul_le_mul_right dHi hmle) hq0.2
    have hmsmall : m * dHi % 2 ^ 128 = m * dHi :=
      Nat.mod_eq_of_lt (Nat.lt_of_le_of_lt hmd hpref128)
    have hw : wrapping_sub128 (rHi * 2 ^ 64 + rLo) (m * dHi % 2 ^ 128)
        = rHi * 2 ^ 64 + rLo - m * dHi := by
      rw [hmsmall, wrapping_sub128]
      omega
    apply refine_qhat_ge
    · by_cases hrh : 2 ^ 64 - 1 < rHi * 2 ^ 64 + rLo - m * dHi
      · exact Or.inl (by rw [hw]; exact hrh)
      · right
        rw [hw, lor_high_low _ _ _ h5]
        have s1 : m * dHi + 2 * dHi ≤ rHi * 2 ^ 64 + rLo := by
          calc m * dHi + 2 * dHi = (m + 2) * dHi := by ring
          _ = q0 * dHi := by rw [hm2]
          _ ≤ rHi * 2 ^ 64 + rLo := hq0.2
        have s2 : m * dNext ≤ 2 * dHi * 2 ^ 64 := by
          calc m * dNext ≤ (2 ^ 64 - 1) * (2 ^ 64 - 1) :=
            Nat.mul_le_mul (by omega) (by omega)
          _ ≤ 2 * 2 ^ 63 * 2 ^ 64 := by norm_num
          _ ≤ 2 * dHi * 2 ^ 64 :=
            Nat.mul_le_mul_right _ (Nat.mul_le_mul_left 2 h1)
        have main : m * dNext + m * dHi * 2 ^ 64 ≤ (rHi * 2 ^ 64 + rLo) * 2 ^ 64 := by
          have s3 : (m * dHi + 2 * dHi) * 2 ^ 64 ≤ (rHi * 2 ^ 64 + rLo) * 2 ^ 64 :=
            Nat.mul_le_mul_right _ s1
          have s4 : (m * dHi + 2 * dHi) * 2 ^ 64
              = m * dHi * 2 ^ 64 + 2 * dHi * 2 ^ 64 := by ring
          omega
        have e : (rHi * 2 ^ 64 + rLo - m * dHi) * 2 ^ 64
            = (rHi * 2 ^ 64 + rLo) * 2 ^ 64 - m * dHi * 2 ^ 64 :=
          Nat.sub_mul _ _ _
        omega
    · exact hmle

/-- Witness for claim C6 at a concrete input. -/
theorem knuth_refine_loop_at_most_two_decrements_witness :
    estimate_qhat 0 5 (2 ^ 63) - 2 ≤
      refine_qhat (0 <<< 64 ||| 5) (2 ^ 63) 0 0 (estimate_qhat 0 5 (2 ^ 63))
    ∧ refine_qhat (0 <<< 64 ||| 5) (2 ^ 63) 0 0 (estimate_qhat 0 5 (2 ^ 63)) ≤
      estimate_qhat 0 5 (2 ^ 63) :=
  knuth_refine_loop_at_most_two_decrements (2 ^ 63) 0 0 5 0 (by decide) (by decide)
    (by decide) (by decide) (by decide) (by decide)

/-- Witness for claim C8 at concrete inputs. -/
theorem uint256_ring_laws_witness :
    Uint256.add ⟨1, 2, 3, 4⟩ ⟨5, 6, 7, 8⟩ = Uint256.add ⟨5, 6, 7, 8⟩ ⟨1, 2, 3, 4⟩
    ∧ Uint256.mul ⟨1, 2, 3, 4⟩ ⟨5, 6, 7, 8⟩ = Uint256.mul ⟨5, 6, 7, 8⟩ ⟨1, 2, 3, 4⟩
    ∧ Uint256.sub (Uint256.add ⟨1, 2, 3, 4⟩ ⟨5, 6, 7, 8⟩) ⟨5, 6, 7, 8⟩ = ⟨1, 2, 3, 4⟩
    ∧ Uint256.sub ⟨1, 2, 3, 4⟩ ⟨1, 2, 3, 4⟩ = Uint256.ZERO :=
  uint256_ring_laws ⟨1, 2, 3, 4⟩ ⟨5, 6, 7, 8⟩ (by decide) (by decide)

end Bigints

namespace Bigints

/-!
Cross-checks of the embedding: the division dispatcher evaluated on one
concrete input per dispatch path, compared against the floor quotient
computed independently on the numeric values (which all the non-buggy paths
match).
-/

/-- Evaluation cross-check of the one-limb-divisor path against the floor
quotient. -/
theorem div_eval_one_limb_path :
    Uint256.div ⟨999, 0, 0, 2 ^ 63⟩ ⟨12345678901, 0, 0, 0⟩ =
      some (Uint256.ofNat
        (Uint256.toNat ⟨999, 0, 0, 2 ^ 63⟩ / Uint256.toNat ⟨12345678901, 0, 0, 0⟩)) := by
  decide

/-- Evaluation cross-check of the two-limb-divisor path (with a divisor
needing a non-zero normalization shift) against the floor quotient. -/
theorem div_eval_two_limb_path :
    Uint256.div ⟨12345, 0, 0, 256⟩ ⟨7, 68719476736, 0, 0⟩ =
      some (Uint256.ofNat
        (Uint256.toNat ⟨12345, 0, 0, 256⟩ / Uint256.toNat ⟨7, 68719476736, 0, 0⟩)) := by
  decide

/-- Evaluation cross-check of the Knuth path with a one-digit quotient
against the floor quotient. -/
theorem div_eval_knuth_64bit_path :
    Uint256.div ⟨999, 0, 0, 2 ^ 63⟩ ⟨17, 0, 0, 256⟩ =
      some (Uint256.ofNat
        (Uint256.toNat ⟨999, 0, 0, 2 ^ 63⟩ / Uint256.toNat ⟨17, 0, 0, 256⟩)) := by
  decide

/-- Evaluation cross-check of the Knuth path with a two-digit quotient
against the floor quotient. -/
theorem div_eval_knuth_128bit_path :
    Uint256.div ⟨999, 0, 0, 2 ^ 63⟩ ⟨3, 0, 4, 0⟩ =
      some (Uint256.ofNat
        (Uint256.toNat ⟨999, 0, 0, 2 ^ 63⟩ / Uint256.toNat ⟨3, 0, 4, 0⟩)) := by
  decide

end Bigints
